import Mathlib

/-!
Verification of the pixel-buffer utilities of `src/app/utils.cc`: alpha
blending (`alpha_blend`), RGB→YUYV packing (`convert_rgb_to_yuyv`), fourcc
string resolution (`fourCcFromString`) and the resource search chain
(`resolve_path`).  Byte buffers are modelled as `List Nat` whose entries are
meant to lie in `[0, 255]`; every `% 256` in a definition mirrors a
`(uint8_t)` cast in the C++ source.
-/

namespace Backscrub

/-- One blended channel byte, `(uint8_t)((a * aw + b * bw) / 255)` with
`aw = w` the mask byte and `bw = 255 - w` (inner loop of `alpha_blend`,
utils.cc lines 89–95). -/
def blend_pix (a b w : Nat) : Nat :=
  ((a * w + b * (255 - w)) / 255) % 256

/-- Flat-buffer alpha blend: for each mask byte, blend three interleaved
channel bytes of `a` and `b`, exactly as the pointer walk of `alpha_blend`
(utils.cc lines 87–96) over `rows*cols` pixels. -/
def alpha_blend_data : List Nat → List Nat → List Nat → List Nat
  | a1 :: a2 :: a3 :: ta, b1 :: b2 :: b3 :: tb, w :: tm =>
      blend_pix a1 b1 w :: blend_pix a2 b2 w :: blend_pix a3 b3 w ::
        alpha_blend_data ta tb tm
  | _, _, _ => []

theorem getD_le_255 (l : List Nat) (i : Nat) (h : ∀ x ∈ l, x ≤ 255) :
    l.getD i 0 ≤ 255 := by
  rw [List.getD_eq_getD_get?]
  cases hg : l.get? i with
  | none => simp [hg]
  | some x => simpa [hg] using h x (List.get?_mem hg)

/-- Indexing the flat blended buffer: byte `3*p + c` is the blend of the
corresponding input bytes under mask byte `p`. -/
theorem alpha_blend_data_getD (m : List Nat) (a b : List Nat) (p c : Nat)
    (ha : a.length = 3 * m.length) (hb : b.length = 3 * m.length)
    (hp : p < m.length) (hc : c < 3) :
    (alpha_blend_data a b m).getD (3 * p + c) 0 =
      blend_pix (a.getD (3 * p + c) 0) (b.getD (3 * p + c) 0) (m.getD p 0) := by
  induction m generalizing a b p with
  | nil => exact absurd hp (by simp)
  | cons w tm ih =>
    rcases a with _ | ⟨a1, _ | ⟨a2, _ | ⟨a3, ta⟩⟩⟩ <;> simp only [List.length] at ha <;>
      try omega
    rcases b with _ | ⟨b1, _ | ⟨b2, _ | ⟨b3, tb⟩⟩⟩ <;> simp only [List.length] at hb <;>
      try omega
    cases p with
    | zero =>
      interval_cases c <;> simp [alpha_blend_data, List.getD]
    | succ q =>
      have hidx : 3 * (q + 1) + c = (3 * q + c) + 1 + 1 + 1 := by ring
      rw [hidx]
      simp only [alpha_blend_data, List.getD_cons_succ]
      exact ih ta tb q (by omega) (by omega) (by simpa using hp)

/-- The weighted sum lies between `min*255` and `max*255`. -/
theorem blend_sum_bounds (A B W : Nat) (hW : W ≤ 255) :
    min A B * 255 ≤ A * W + B * (255 - W) ∧
      A * W + B * (255 - W) ≤ max A B * 255 := by
  obtain ⟨t, hwt⟩ : ∃ t, W + t = 255 := ⟨255 - W, by omega⟩
  have h2 : 255 - W = t := by omega
  rw [h2, ← hwt]
  constructor
  · rcases le_total A B with h | h
    · rw [min_eq_left h]
      calc A * (W + t) = A * W + A * t := by ring
        _ ≤ A * W + B * t := Nat.add_le_add_left (Nat.mul_le_mul_right t h) _
    · rw [min_eq_right h]
      calc B * (W + t) = B * W + B * t := by ring
        _ ≤ A * W + B * t := Nat.add_le_add_right (Nat.mul_le_mul_right W h) _
  · rcases le_total A B with h | h
    · rw [max_eq_right h]
      calc A * W + B * t ≤ B * W + B * t := Nat.add_le_add_right (Nat.mul_le_mul_right W h) _
        _ = B * (W + t) := by ring
    · rw [max_eq_left h]
      calc A * W + B * t ≤ A * W + A * t := Nat.add_le_add_left (Nat.mul_le_mul_right t h) _
        _ = A * (W + t) := by ring

/-- With byte-sized inputs the `(uint8_t)` cast in `blend_pix` is the
identity: the blend equals the bare truncating division. -/
theorem blend_pix_eq_div (A B W : Nat) (hA : A ≤ 255) (hB : B ≤ 255)
    (hW : W ≤ 255) :
    blend_pix A B W = (A * W + B * (255 - W)) / 255 := by
  have hb := blend_sum_bounds A B W hW
  have hmax : max A B ≤ 255 := Nat.max_le.mpr ⟨hA, hB⟩
  have hq_le : (A * W + B * (255 - W)) / 255 ≤ max A B := by
    have h : (A * W + B * (255 - W)) / 255 ≤ max A B * 255 / 255 :=
      Nat.div_le_div_right hb.2
    simpa [Nat.mul_div_cancel _ (by norm_num : 0 < 255)] using h
  have hqlt : (A * W + B * (255 - W)) / 255 < 256 := by omega
  unfold blend_pix
  exact Nat.mod_eq_of_lt hqlt

/-- The blended byte lies between the two input bytes. -/
theorem blend_pix_between (A B W : Nat) (hA : A ≤ 255) (hB : B ≤ 255)
    (hW : W ≤ 255) :
    min A B ≤ blend_pix A B W ∧ blend_pix A B W ≤ max A B := by
  have hb := blend_sum_bounds A B W hW
  rw [blend_pix_eq_div A B W hA hB hW]
  constructor
  · exact (Nat.le_div_iff_mul_le (by norm_num)).2 hb.1
  · have h : (A * W + B * (255 - W)) / 255 ≤ max A B * 255 / 255 :=
      Nat.div_le_div_right hb.2
    simpa [Nat.mul_div_cancel _ (by norm_num : 0 < 255)] using h

theorem blend_pix_full (A B : Nat) (hA : A ≤ 255) :
    blend_pix A B 255 = A := by
  unfold blend_pix
  simp [Nat.mul_div_cancel _ (by norm_num : 0 < 255), Nat.mod_eq_of_lt (by omega : A < 256)]

theorem blend_pix_zero (A B : Nat) (hB : B ≤ 255) :
    blend_pix A B 0 = B := by
  unfold blend_pix
  simp [Nat.mul_div_cancel _ (by norm_num : 0 < 255), Nat.mod_eq_of_lt (by omega : B < 256)]

/-- C1: on valid inputs (same-sized 3-channel `a`, `b` and 1-channel mask,
all bytes), every output byte at pixel `p`, channel `c` equals
`(a[p][c] * w + b[p][c] * (255 - w)) / 255` with `w = mask[p]`, integer
division truncating toward zero. -/
theorem alpha_blend_pixel_formula (a b m : List Nat) (p c : Nat)
    (ha : a.length = 3 * m.length) (hb : b.length = 3 * m.length)
    (hab : ∀ x ∈ a, x ≤ 255) (hbb : ∀ x ∈ b, x ≤ 255) (hmb : ∀ x ∈ m, x ≤ 255)
    (hp : p < m.length) (hc : c < 3) :
    (alpha_blend_data a b m).getD (3 * p + c) 0 =
      (a.getD (3 * p + c) 0 * m.getD p 0
        + b.getD (3 * p + c) 0 * (255 - m.getD p 0)) / 255 := by
  rw [alpha_blend_data_getD m a b p c ha hb hp hc]
  exact blend_pix_eq_div _ _ _ (getD_le_255 a _ hab) (getD_le_255 b _ hbb)
    (getD_le_255 m _ hmb)

theorem alpha_blend_pixel_formula_witness :
    (alpha_blend_data [10, 20, 30] [200, 50, 60] [100]).getD (3 * 0 + 1) 0 =
      ([10, 20, 30].getD (3 * 0 + 1) 0 * [100].getD 0 0
        + [200, 50, 60].getD (3 * 0 + 1) 0 * (255 - [100].getD 0 0)) / 255 :=
  alpha_blend_pixel_formula [10, 20, 30] [200, 50, 60] [100] 0 1
    (by decide) (by decide) (by decide) (by decide) (by decide) (by decide) (by decide)

theorem blend_pix_swap (A B W : Nat) (hW : W ≤ 255) :
    blend_pix A B W = blend_pix B A (255 - W) := by
  unfold blend_pix
  rw [Nat.sub_sub_self hW, Nat.add_comm]

/-- C9: `blend(a, b, m)` and `blend(b, a, 255 - m)` are byte-identical. -/
theorem alpha_blend_mask_negation (a b m : List Nat)
    (hmb : ∀ x ∈ m, x ≤ 255) :
    alpha_blend_data a b m =
      alpha_blend_data b a (m.map fun w => 255 - w) := by
  induction m generalizing a b with
  | nil =>
    rcases a with _ | ⟨a1, _ | ⟨a2, _ | ⟨a3, ta⟩⟩⟩ <;>
      rcases b with _ | ⟨b1, _ | ⟨b2, _ | ⟨b3, tb⟩⟩⟩ <;> rfl
  | cons w tm ih =>
    have hw : w ≤ 255 := hmb w (by simp)
    have hm' : ∀ x ∈ tm, x ≤ 255 := fun x hx => hmb x (by simp [hx])
    rcases a with _ | ⟨a1, _ | ⟨a2, _ | ⟨a3, ta⟩⟩⟩ <;>
      rcases b with _ | ⟨b1, _ | ⟨b2, _ | ⟨b3, tb⟩⟩⟩ <;>
      first
        | rfl
        | (simp only [List.map_cons, alpha_blend_data]
           rw [blend_pix_swap a1 b1 w hw, blend_pix_swap a2 b2 w hw,
             blend_pix_swap a3 b3 w hw, ih ta tb hm'])

theorem alpha_blend_mask_negation_witness :
    alpha_blend_data [10, 20, 30, 1, 2, 3] [200, 50, 60, 4, 5, 6] [100, 7] =
      alpha_blend_data [200, 50, 60, 4, 5, 6] [10, 20, 30, 1, 2, 3]
        (List.map (fun w => 255 - w) [100, 7]) :=
  alpha_blend_mask_negation [10, 20, 30, 1, 2, 3] [200, 50, 60, 4, 5, 6]
    [100, 7] (by decide)

/-- C10: each output byte lies between the corresponding bytes of `a` and
`b`; mask byte 255 reproduces `a` exactly and mask byte 0 reproduces `b`
exactly. -/
theorem alpha_blend_output_between (a b m : List Nat) (p c : Nat)
    (ha : a.length = 3 * m.length) (hb : b.length = 3 * m.length)
    (hab : ∀ x ∈ a, x ≤ 255) (hbb : ∀ x ∈ b, x ≤ 255) (hmb : ∀ x ∈ m, x ≤ 255)
    (hp : p < m.length) (hc : c < 3) :
    (min (a.getD (3 * p + c) 0) (b.getD (3 * p + c) 0)
        ≤ (alpha_blend_data a b m).getD (3 * p + c) 0
      ∧ (alpha_blend_data a b m).getD (3 * p + c) 0
        ≤ max (a.getD (3 * p + c) 0) (b.getD (3 * p + c) 0))
    ∧ (m.getD p 0 = 255 →
        (alpha_blend_data a b m).getD (3 * p + c) 0 = a.getD (3 * p + c) 0)
    ∧ (m.getD p 0 = 0 →
        (alpha_blend_data a b m).getD (3 * p + c) 0 = b.getD (3 * p + c) 0) := by
  rw [alpha_blend_data_getD m a b p c ha hb hp hc]
  have hA := getD_le_255 a (3 * p + c) hab
  have hB := getD_le_255 b (3 * p + c) hbb
  have hW := getD_le_255 m p hmb
  refine ⟨blend_pix_between _ _ _ hA hB hW, ?_, ?_⟩
  · intro h255
    rw [h255]
    exact blend_pix_full _ _ hA
  · intro h0
    rw [h0]
    exact blend_pix_zero _ _ hB

theorem alpha_blend_output_between_witness :
    (min ([10, 20, 30].getD (3 * 0 + 0) 0) ([200, 50, 60].getD (3 * 0 + 0) 0)
        ≤ (alpha_blend_data [10, 20, 30] [200, 50, 60] [100]).getD (3 * 0 + 0) 0
      ∧ (alpha_blend_data [10, 20, 30] [200, 50, 60] [100]).getD (3 * 0 + 0) 0
        ≤ max ([10, 20, 30].getD (3 * 0 + 0) 0) ([200, 50, 60].getD (3 * 0 + 0) 0))
    ∧ ([100].getD 0 0 = 255 →
        (alpha_blend_data [10, 20, 30] [200, 50, 60] [100]).getD (3 * 0 + 0) 0
          = [10, 20, 30].getD (3 * 0 + 0) 0)
    ∧ ([100].getD 0 0 = 0 →
        (alpha_blend_data [10, 20, 30] [200, 50, 60] [100]).getD (3 * 0 + 0) 0
          = [200, 50, 60].getD (3 * 0 + 0) 0) :=
  alpha_blend_output_between [10, 20, 30] [200, 50, 60] [100] 0 0
    (by decide) (by decide) (by decide) (by decide) (by decide) (by decide) (by decide)

/-- An image matrix: `rows × cols` pixels, `channels` interleaved samples of
`depth` bits each, flat row-major byte buffer (the `cv::Mat` views used by
utils.cc; `depth = 8` models `CV_8U`). -/
structure Img where
  rows : Nat
  cols : Nat
  channels : Nat
  depth : Nat
  data : List Nat
deriving DecidableEq

/-- The packing loop of `convert_rgb_to_yuyv` (utils.cc lines 54–62): per
horizontal pixel pair emit `[Y0, avgV, Y1, avgU]`, chroma averaged with
truncating division by 2; `% 256` mirrors the `(uint8_t)` casts. -/
def yuyv_pack : List Nat → List Nat → List Nat → List Nat
  | y0 :: y1 :: ty, u0 :: u1 :: tu, v0 :: v1 :: tv =>
      y0 :: ((v0 + v1) / 2) % 256 :: y1 :: ((u0 + u1) / 2) % 256 ::
        yuyv_pack ty tu tv
  | _, _, _ => []

/-- `convert_rgb_to_yuyv` (utils.cc lines 42–65): split the input into
planar Y/U/V via the external colour conversion (`cv::cvtColor` +
`cv::split`, passed here as the parameter `split`), then pack pixel pairs
into a `rows × cols` 2-channel 8-bit output. -/
def convert_rgb_to_yuyv (split : Img → List Nat × List Nat × List Nat)
    (input : Img) : Img :=
  { rows := input.rows, cols := input.cols, channels := 2, depth := 8,
    data := yuyv_pack (split input).1 (split input).2.1 (split input).2.2 }

theorem yuyv_pack_length (k : Nat) (y u v : List Nat)
    (hy : y.length = 2 * k) (hu : u.length = 2 * k) (hv : v.length = 2 * k) :
    (yuyv_pack y u v).length = 4 * k := by
  induction k generalizing y u v with
  | zero =>
    have hy0 : y = [] := List.length_eq_zero.mp (by omega)
    have hu0 : u = [] := List.length_eq_zero.mp (by omega)
    have hv0 : v = [] := List.length_eq_zero.mp (by omega)
    subst hy0 hu0 hv0
    rfl
  | succ n ih =>
    rcases y with _ | ⟨y0, _ | ⟨y1, ty⟩⟩ <;> simp only [List.length] at hy <;> try omega
    rcases u with _ | ⟨u0, _ | ⟨u1, tu⟩⟩ <;> simp only [List.length] at hu <;> try omega
    rcases v with _ | ⟨v0, _ | ⟨v1, tv⟩⟩ <;> simp only [List.length] at hv <;> try omega
    simp only [yuyv_pack, List.length]
    rw [ih ty tu tv (by omega) (by omega) (by omega)]
    omega

/-- Indexing the packed YUYV buffer at an even pixel index `i`. -/
theorem yuyv_pack_getD (k : Nat) (y u v : List Nat) (i : Nat)
    (hy : y.length = 2 * k) (hu : u.length = 2 * k) (hv : v.length = 2 * k)
    (hi2 : i % 2 = 0) (hi : i + 1 < 2 * k) :
    (yuyv_pack y u v).getD (2 * i) 0 = y.getD i 0
    ∧ (yuyv_pack y u v).getD (2 * i + 1) 0
        = ((v.getD i 0 + v.getD (i + 1) 0) / 2) % 256
    ∧ (yuyv_pack y u v).getD (2 * i + 2) 0 = y.getD (i + 1) 0
    ∧ (yuyv_pack y u v).getD (2 * i + 3) 0
        = ((u.getD i 0 + u.getD (i + 1) 0) / 2) % 256 := by
  induction k generalizing y u v i with
  | zero => omega
  | succ n ih =>
    rcases y with _ | ⟨y0, _ | ⟨y1, ty⟩⟩ <;> simp only [List.length] at hy <;> try omega
    rcases u with _ | ⟨u0, _ | ⟨u1, tu⟩⟩ <;> simp only [List.length] at hu <;> try omega
    rcases v with _ | ⟨v0, _ | ⟨v1, tv⟩⟩ <;> simp only [List.length] at hv <;> try omega
    rcases i with _ | _ | j
    · simp [yuyv_pack, List.getD]
    · omega
    · obtain ⟨e1, e2, e3, e4⟩ :=
        ih ty tu tv j (by omega) (by omega) (by omega) (by omega) (by omega)
      refine ⟨?_, ?_, ?_, ?_⟩
      · have hoff : 2 * (j + 2) = 2 * j + 1 + 1 + 1 + 1 := by omega
        rw [hoff]
        simpa only [yuyv_pack, List.getD_cons_succ] using e1
      · have hoff : 2 * (j + 2) + 1 = 2 * j + 1 + 1 + 1 + 1 + 1 := by omega
        rw [hoff]
        simpa only [yuyv_pack, List.getD_cons_succ] using e2
      · have hoff : 2 * (j + 2) + 2 = 2 * j + 2 + 1 + 1 + 1 + 1 := by omega
        rw [hoff]
        simpa only [yuyv_pack, List.getD_cons_succ] using e3
      · have hoff : 2 * (j + 2) + 3 = 2 * j + 3 + 1 + 1 + 1 + 1 := by omega
        rw [hoff]
        simpa only [yuyv_pack, List.getD_cons_succ] using e4

/-- C2: with even pixel count, the converted buffer has exactly
`rows*cols*2` bytes, and each even plane index `i` yields the 4 bytes
`[Y_i, avg_V, Y_i+1, avg_U]` at output offset `2*i`, chroma averaged with
truncating division by 2. -/
theorem convert_rgb_to_yuyv_pairs
    (split : Img → List Nat × List Nat × List Nat) (input : Img)
    (y u v : List Nat) (hs : split input = (y, u, v))
    (hy : y.length = input.rows * input.cols)
    (hu : u.length = input.rows * input.cols)
    (hv : v.length = input.rows * input.cols)
    (heven : input.rows * input.cols % 2 = 0)
    (hub : ∀ x ∈ u, x ≤ 255) (hvb : ∀ x ∈ v, x ≤ 255)
    (i : Nat) (hi2 : i % 2 = 0) (hi : i + 1 < input.rows * input.cols) :
    (convert_rgb_to_yuyv split input).data.length = input.rows * input.cols * 2
    ∧ (convert_rgb_to_yuyv split input).data.getD (2 * i) 0 = y.getD i 0
    ∧ (convert_rgb_to_yuyv split input).data.getD (2 * i + 1) 0
        = (v.getD i 0 + v.getD (i + 1) 0) / 2
    ∧ (convert_rgb_to_yuyv split input).data.getD (2 * i + 2) 0
        = y.getD (i + 1) 0
    ∧ (convert_rgb_to_yuyv split input).data.getD (2 * i + 3) 0
        = (u.getD i 0 + u.getD (i + 1) 0) / 2 := by
  obtain ⟨k, hk⟩ : ∃ k, input.rows * input.cols = 2 * k :=
    ⟨input.rows * input.cols / 2, by omega⟩
  have hdata : (convert_rgb_to_yuyv split input).data = yuyv_pack y u v := by
    simp [convert_rgb_to_yuyv, hs]
  obtain ⟨e1, e2, e3, e4⟩ := yuyv_pack_getD k y u v i (hy.trans hk)
    (hu.trans hk) (hv.trans hk) hi2 (by omega)
  have hv1 := getD_le_255 v i hvb
  have hv2 := getD_le_255 v (i + 1) hvb
  have hu1 := getD_le_255 u i hub
  have hu2 := getD_le_255 u (i + 1) hub
  rw [hdata]
  refine ⟨?_, e1, by rw [e2]; omega, e3, by rw [e4]; omega⟩
  rw [yuyv_pack_length k y u v (hy.trans hk) (hu.trans hk) (hv.trans hk)]
  omega

theorem convert_rgb_to_yuyv_pairs_witness :
    (convert_rgb_to_yuyv (fun _ => ([1, 2], [3, 4], [5, 6]))
        ⟨1, 2, 3, 8, [0, 0, 0, 0, 0, 0]⟩).data.length = 1 * 2 * 2
    ∧ (convert_rgb_to_yuyv (fun _ => ([1, 2], [3, 4], [5, 6]))
        ⟨1, 2, 3, 8, [0, 0, 0, 0, 0, 0]⟩).data.getD (2 * 0) 0 = [1, 2].getD 0 0
    ∧ (convert_rgb_to_yuyv (fun _ => ([1, 2], [3, 4], [5, 6]))
        ⟨1, 2, 3, 8, [0, 0, 0, 0, 0, 0]⟩).data.getD (2 * 0 + 1) 0
        = ([5, 6].getD 0 0 + [5, 6].getD (0 + 1) 0) / 2
    ∧ (convert_rgb_to_yuyv (fun _ => ([1, 2], [3, 4], [5, 6]))
        ⟨1, 2, 3, 8, [0, 0, 0, 0, 0, 0]⟩).data.getD (2 * 0 + 2) 0
        = [1, 2].getD (0 + 1) 0
    ∧ (convert_rgb_to_yuyv (fun _ => ([1, 2], [3, 4], [5, 6]))
        ⟨1, 2, 3, 8, [0, 0, 0, 0, 0, 0]⟩).data.getD (2 * 0 + 3) 0
        = ([3, 4].getD 0 0 + [3, 4].getD (0 + 1) 0) / 2 :=
  convert_rgb_to_yuyv_pairs (fun _ => ([1, 2], [3, 4], [5, 6]))
    ⟨1, 2, 3, 8, [0, 0, 0, 0, 0, 0]⟩ [1, 2] [3, 4] [5, 6] rfl
    (by decide) (by decide) (by decide) (by decide) (by decide) (by decide)
    0 (by decide) (by decide)

inductive ConvError where
  | InvalidDimensions
deriving DecidableEq

/-- Modelled from the spec: the source loop (utils.cc lines 54–62) performs
no parity check and reads past the plane buffers when the total pixel count
is odd (undefined behavior); the spec requires rejecting an odd total pixel
count with the typed error `InvalidDimensions` instead. -/
def convert_rgb_to_yuyv_checked
    (split : Img → List Nat × List Nat × List Nat) (input : Img) :
    Except ConvError Img :=
  if input.rows * input.cols % 2 = 0 then
    Except.ok (convert_rgb_to_yuyv split input)
  else
    Except.error ConvError.InvalidDimensions

/-- C4: an odd total pixel count is rejected with `InvalidDimensions`. -/
theorem convert_checked_rejects_odd
    (split : Img → List Nat × List Nat × List Nat) (input : Img)
    (h : input.rows * input.cols % 2 = 1) :
    convert_rgb_to_yuyv_checked split input
      = Except.error ConvError.InvalidDimensions := by
  unfold convert_rgb_to_yuyv_checked
  rw [if_neg (by omega)]

theorem convert_checked_rejects_odd_witness :
    convert_rgb_to_yuyv_checked (fun _ => ([], [], [])) ⟨1, 3, 3, 8, []⟩
      = Except.error ConvError.InvalidDimensions :=
  convert_checked_rejects_odd (fun _ => ([], [], [])) ⟨1, 3, 3, 8, []⟩ (by decide)

inductive BlendError where
  | DimensionMismatch
  | InvalidLayout
deriving DecidableEq

/-- Modelled from the spec: the source (utils.cc lines 71–78) validates the
compositor preconditions only with `assert` (aborting in debug builds,
unchecked in release builds); the spec requires returning the typed
recoverable errors `DimensionMismatch` / `InvalidLayout` instead, writing
no output on failure.  The success path blends exactly as the source loop
(utils.cc lines 87–96). -/
def alpha_blend_checked (a b mask : Img) : Except BlendError Img :=
  if a.rows = b.rows ∧ a.cols = b.cols ∧ mask.rows = a.rows ∧ mask.cols = a.cols
  then
    if a.channels = 3 ∧ a.depth = 8 ∧ b.channels = 3 ∧ b.depth = 8
        ∧ mask.channels = 1 ∧ mask.depth = 8
    then
      Except.ok { rows := a.rows, cols := a.cols, channels := 3, depth := 8,
                  data := alpha_blend_data a.data b.data mask.data }
    else Except.error BlendError.InvalidLayout
  else Except.error BlendError.DimensionMismatch

/-- C3: any violation of the compositor precondition yields a typed error
(`DimensionMismatch` or `InvalidLayout`), never an `ok` output. -/
theorem alpha_blend_checked_rejects (a b mask : Img)
    (h : ¬((a.rows = b.rows ∧ a.cols = b.cols ∧ mask.rows = a.rows
            ∧ mask.cols = a.cols)
        ∧ (a.channels = 3 ∧ a.depth = 8 ∧ b.channels = 3 ∧ b.depth = 8
            ∧ mask.channels = 1 ∧ mask.depth = 8))) :
    alpha_blend_checked a b mask = Except.error BlendError.DimensionMismatch
    ∨ alpha_blend_checked a b mask = Except.error BlendError.InvalidLayout := by
  unfold alpha_blend_checked
  by_cases hd : a.rows = b.rows ∧ a.cols = b.cols ∧ mask.rows = a.rows
      ∧ mask.cols = a.cols
  · have hl : ¬(a.channels = 3 ∧ a.depth = 8 ∧ b.channels = 3 ∧ b.depth = 8
        ∧ mask.channels = 1 ∧ mask.depth = 8) := fun hl => h ⟨hd, hl⟩
    right
    rw [if_pos hd, if_neg hl]
  · left
    rw [if_neg hd]

theorem alpha_blend_checked_rejects_witness :
    alpha_blend_checked ⟨1, 1, 3, 8, [0, 0, 0]⟩ ⟨2, 1, 3, 8, [0, 0, 0, 0, 0, 0]⟩
        ⟨1, 1, 1, 8, [0]⟩
      = Except.error BlendError.DimensionMismatch
    ∨ alpha_blend_checked ⟨1, 1, 3, 8, [0, 0, 0]⟩ ⟨2, 1, 3, 8, [0, 0, 0, 0, 0, 0]⟩
        ⟨1, 1, 1, 8, [0]⟩
      = Except.error BlendError.InvalidLayout :=
  alpha_blend_checked_rejects ⟨1, 1, 3, 8, [0, 0, 0]⟩
    ⟨2, 1, 3, 8, [0, 0, 0, 0, 0, 0]⟩ ⟨1, 1, 1, 8, [0]⟩ (by decide)

inductive FourCCError where
  | InvalidFourCC
deriving DecidableEq

/-- ASCII `::toupper` as applied to the fourcc bytes (utils.cc line 27). -/
def toupper (c : Nat) : Nat :=
  if 97 ≤ c ∧ c ≤ 122 then c - 32 else c

/-- `cv::VideoWriter::fourcc(c1,c2,c3,c4)`: the four bytes packed
low-to-high, first character in the least significant byte. -/
def cv_fourcc (c1 c2 c3 c4 : Nat) : Nat :=
  c1 % 256 + c2 % 256 * 256 + c3 % 256 * 65536 + c4 % 256 * 16777216

/-- Value of one ASCII hex digit. -/
def hexVal (c : Nat) : Option Nat :=
  if 48 ≤ c ∧ c ≤ 57 then some (c - 48)
  else if 65 ≤ c ∧ c ≤ 70 then some (c - 55)
  else if 97 ≤ c ∧ c ≤ 102 then some (c - 87)
  else none

/-- Base-16 accumulation over a byte string; `none` on any non-hex byte. -/
def parseHexNat : List Nat → Nat → Option Nat
  | [], acc => some acc
  | c :: t, acc =>
    match hexVal c with
    | some d => parseHexNat t (16 * acc + d)
    | none => none

/-- `fourCcFromString` (utils.cc lines 15–39) over the byte string of the
input.  The length-8 branch is modelled from the spec: the source calls
`std::stoi(in, nullptr, 16)`, which throws a numeric-parse exception on
malformed input; the spec requires parsing the 8 characters as a hex
literal and failing with the typed error `InvalidFourCC` instead. -/
def fourCcFromString (s : List Nat) : Except FourCCError Nat :=
  if s.length = 0 then Except.ok 0
  else if s.length ≤ 4 then
    Except.ok (cv_fourcc (toupper (s.getD 0 32)) (toupper (s.getD 1 32))
      (toupper (s.getD 2 32)) (toupper (s.getD 3 32)))
  else if s.length = 8 then
    match parseHexNat s 0 with
    | some n => Except.ok n
    | none => Except.error FourCCError.InvalidFourCC
  else Except.ok 0

/-- The pack the spec describes: upper-case, right-pad with `0x20` to four
characters, and place the bytes in original left-to-right order in the
32-bit code (first character least significant). -/
def fourCcPackSpec (s : List Nat) : Nat :=
  ((s.map toupper ++ List.replicate (4 - s.length) 32).getD 0 0)
    + ((s.map toupper ++ List.replicate (4 - s.length) 32).getD 1 0) * 256
    + ((s.map toupper ++ List.replicate (4 - s.length) 32).getD 2 0) * 65536
    + ((s.map toupper ++ List.replicate (4 - s.length) 32).getD 3 0) * 16777216

theorem toupper_le_127 (c : Nat) (h : c ≤ 127) : toupper c ≤ 127 := by
  unfold toupper
  split <;> omega

/-- C5: for inputs of length ≠ 8 (ASCII bytes): empty gives 0; length 1–4
gives the upper-cased, space-padded left-to-right pack; length 5–7 or > 8
gives 0. -/
theorem fourCc_non_hex_lengths (s : List Nat) (hb : ∀ c ∈ s, c ≤ 127)
    (h8 : s.length ≠ 8) :
    (s.length = 0 → fourCcFromString s = Except.ok 0)
    ∧ (1 ≤ s.length → s.length ≤ 4 →
        fourCcFromString s = Except.ok (fourCcPackSpec s))
    ∧ (5 ≤ s.length → fourCcFromString s = Except.ok 0) := by
  refine ⟨?_, ?_, ?_⟩
  · intro h0
    unfold fourCcFromString
    rw [if_pos h0]
  · intro h1 h4
    rcases s with _ | ⟨c1, _ | ⟨c2, _ | ⟨c3, _ | ⟨c4, _ | ⟨c5, t⟩⟩⟩⟩⟩
    · simp at h1
    · have e0 : toupper 32 = 32 := by decide
      have e1 := toupper_le_127 c1 (hb c1 (by simp))
      simp only [fourCcFromString, fourCcPackSpec, cv_fourcc, List.map,
        List.length, List.getD, List.get?, List.append_nil, List.replicate,
        List.cons_append, List.nil_append]
      norm_num
      omega
    · have e0 : toupper 32 = 32 := by decide
      have e1 := toupper_le_127 c1 (hb c1 (by simp))
      have e2 := toupper_le_127 c2 (hb c2 (by simp))
      simp only [fourCcFromString, fourCcPackSpec, cv_fourcc, List.map,
        List.length, List.getD, List.get?, List.append_nil, List.replicate,
        List.cons_append, List.nil_append]
      norm_num
      omega
    · have e0 : toupper 32 = 32 := by decide
      have e1 := toupper_le_127 c1 (hb c1 (by simp))
      have e2 := toupper_le_127 c2 (hb c2 (by simp))
      have e3 := toupper_le_127 c3 (hb c3 (by simp))
      simp only [fourCcFromString, fourCcPackSpec, cv_fourcc, List.map,
        List.length, List.getD, List.get?, List.append_nil, List.replicate,
        List.cons_append, List.nil_append]
      norm_num
      omega
    · have e0 : toupper 32 = 32 := by decide
      have e1 := toupper_le_127 c1 (hb c1 (by simp))
      have e2 := toupper_le_127 c2 (hb c2 (by simp))
      have e3 := toupper_le_127 c3 (hb c3 (by simp))
      have e4 := toupper_le_127 c4 (hb c4 (by simp))
      simp only [fourCcFromString, fourCcPackSpec, cv_fourcc, List.map,
        List.length, List.getD, List.get?, List.append_nil, List.replicate,
        List.cons_append, List.nil_append]
      norm_num
      omega
    · simp only [List.length] at h4
      omega
  · intro h5
    unfold fourCcFromString
    rw [if_neg (by omega), if_neg (by omega), if_neg h8]

theorem fourCc_non_hex_lengths_witness :
    (([109, 106, 112, 103] : List Nat).length = 0 →
        fourCcFromString [109, 106, 112, 103] = Except.ok 0)
    ∧ (1 ≤ ([109, 106, 112, 103] : List Nat).length →
        ([109, 106, 112, 103] : List Nat).length ≤ 4 →
        fourCcFromString [109, 106, 112, 103]
          = Except.ok (fourCcPackSpec [109, 106, 112, 103]))
    ∧ (5 ≤ ([109, 106, 112, 103] : List Nat).length →
        fourCcFromString [109, 106, 112, 103] = Except.ok 0) :=
  fourCc_non_hex_lengths [109, 106, 112, 103] (by decide) (by decide)

theorem hexVal_le_15 (c d : Nat) (h : hexVal c = some d) : d ≤ 15 := by
  unfold hexVal at h
  split at h
  · simp only [Option.some.injEq] at h
    omega
  · split at h
    · simp only [Option.some.injEq] at h
      omega
    · split at h
      · simp only [Option.some.injEq] at h
        omega
      · exact absurd h (by simp)

/-- `parseHexNat` fails exactly when some byte is not a hex digit. -/
theorem parseHexNat_none_iff (s : List Nat) (acc : Nat) :
    parseHexNat s acc = none ↔ ∃ c ∈ s, hexVal c = none := by
  induction s generalizing acc with
  | nil => simp [parseHexNat]
  | cons c t ih =>
    cases hv : hexVal c with
    | none => simp [parseHexNat, hv]
    | some d => simp [parseHexNat, hv, ih (16 * acc + d)]

/-- The accumulated hex value is bounded by `(acc+1) * 16^length`. -/
theorem parseHexNat_lt (s : List Nat) (acc n : Nat)
    (h : parseHexNat s acc = some n) : n < (acc + 1) * 16 ^ s.length := by
  induction s generalizing acc with
  | nil =>
    simp only [parseHexNat, Option.some.injEq] at h
    simp [← h]
  | cons c t ih =>
    simp only [parseHexNat] at h
    cases hv : hexVal c with
    | none => rw [hv] at h; exact absurd h (by simp)
    | some d =>
      rw [hv] at h
      have hd : d ≤ 15 := hexVal_le_15 c d hv
      have hlt := ih (16 * acc + d) h
      rw [List.length_cons, pow_succ]
      calc n < (16 * acc + d + 1) * 16 ^ t.length := hlt
        _ ≤ ((acc + 1) * 16) * 16 ^ t.length :=
          Nat.mul_le_mul_right _ (by omega)
        _ = (acc + 1) * (16 ^ t.length * 16) := by ring

/-- C6: for inputs of length exactly 8: when every byte is a hex digit, the
parsed 32-bit value is returned directly; otherwise the typed error
`InvalidFourCC` is returned. -/
theorem fourCc_hex_length8 (s : List Nat) (h : s.length = 8) :
    (∀ n, parseHexNat s 0 = some n →
        fourCcFromString s = Except.ok n ∧ n < 4294967296)
    ∧ (parseHexNat s 0 = none ↔ ∃ c ∈ s, hexVal c = none)
    ∧ (parseHexNat s 0 = none →
        fourCcFromString s = Except.error FourCCError.InvalidFourCC) := by
  have h0 : ¬s.length = 0 := by omega
  have h4 : ¬s.length ≤ 4 := by omega
  refine ⟨?_, parseHexNat_none_iff s 0, ?_⟩
  · intro n hn
    constructor
    · unfold fourCcFromString
      rw [if_neg h0, if_neg h4, if_pos h, hn]
    · have hlt := parseHexNat_lt s 0 n hn
      rw [h] at hlt
      simpa using hlt
  · intro hn
    unfold fourCcFromString
    rw [if_neg h0, if_neg h4, if_pos h, hn]

theorem fourCc_hex_length8_witness :
    fourCcFromString [52, 55, 53, 48, 52, 97, 52, 100] = Except.ok 1196444237
    ∧ 1196444237 < 4294967296 :=
  (fourCc_hex_length8 [52, 55, 53, 48, 52, 97, 52, 100] (by decide)).1
    1196444237 (by decide)

/-- `[[:alpha:]]` (C locale): ASCII letters. -/
def isAlphaCh (c : Char) : Bool :=
  decide ((65 ≤ c.toNat ∧ c.toNat ≤ 90) ∨ (97 ≤ c.toNat ∧ c.toNat ≤ 122))

/-- `[[:alnum:]+-.]`: letters, digits, and the range `+` (0x2B) .. `.`
(0x2E) — that is `+ , - .` — as ECMAScript reads `+-.` inside a bracket
class. -/
def isSchemeCh (c : Char) : Bool :=
  isAlphaCh c || decide (48 ≤ c.toNat ∧ c.toNat ≤ 57)
    || decide (43 ≤ c.toNat ∧ c.toNat ≤ 46)

/-- ECMAScript `.`: any character except a line terminator. -/
def isDotCh (c : Char) : Bool :=
  decide (c.toNat ≠ 10 ∧ c.toNat ≠ 13)

/-- After the leading alpha and first scheme character: zero or more
further scheme characters, then `:`, then `.*` to the end. -/
def uriAfterScheme : List Char → Bool
  | [] => false
  | c :: t =>
    if c = ':' then t.all isDotCh else isSchemeCh c && uriAfterScheme t

/-- `std::regex_match(provided, "^[[:alpha:]][[:alnum:]+-.]{1,}:.*$")`
(utils.cc line 119): a letter, at least one scheme character, a colon,
anything to the end. -/
def uriMatch (s : String) : Bool :=
  match s.toList with
  | c0 :: c1 :: t => isAlphaCh c0 && isSchemeCh c1 && uriAfterScheme (c1 :: t)
  | _ => false

/-- `provided.find('/') != npos` (utils.cc line 128). -/
def hasSlash (s : String) : Bool :=
  s.toList.any fun c => c = '/'

/-- Split at every `:`, keeping empty tokens (`std::string` semantics of
repeated `getline` before the end-of-stream adjustment). -/
def splitColon : List Char → List (List Char)
  | [] => [[]]
  | c :: t =>
    if c = ':' then [] :: splitColon t
    else
      match splitColon t with
      | [] => [[c]]
      | g :: gs => (c :: g) :: gs

/-- `std::getline(stream, out, ':')` tokenisation (utils.cc line 136):
like `splitColon` except that the token after a trailing `:` (and the sole
token of an empty input) is never produced, since `getline` fails at
end-of-stream. -/
def getlineSplit (s : List Char) : List (List Char) :=
  if (splitColon s).getLast? = some [] then (splitColon s).dropLast
  else splitColon s

/-- First candidate accepted by the readability probe, in order. -/
def searchFirst (good : String → Bool) : List String → Option String
  | [] => none
  | c :: t => if good c then some c else searchFirst good t

/-- `std::string::rfind('/', bound)`: greatest index `≤ bound` holding a
slash. -/
def lastSlashLe (cs : List Char) (bound : Nat) : Option Nat :=
  (List.range cs.length).foldl
    (fun acc i => if i ≤ bound ∧ cs.getD i ' ' = '/' then some i else acc) none

/-- Environment visible to `resolve_path`: `BACKSCRUB_PATH`,
`XDG_DATA_HOME` and `HOME`; `none` models an unset variable. -/
structure Env where
  backscrubPath : Option String
  xdgDataHome : Option String
  home : Option String
deriving DecidableEq

/-- Result of a resolution: a path, the routine "not found" outcome, or
`undef`, marking that the C++ reaches undefined behavior (a null `char*`
concatenated into a `std::string`). -/
inductive ResolveOutcome where
  | found : String → ResolveOutcome
  | notFound : ResolveOutcome
  | undef : ResolveOutcome
deriving DecidableEq

/-- Executable-relative tiers of `resolve_path` (utils.cc lines 157–191):
strip the binary name and its directory from the readlink result, then try
`<guess>/share/backscrub/<type>/<name>` and `<guess>/<type>/<name>`. -/
def exeTiers (good : String → Bool) (bin ty provided : String) :
    ResolveOutcome :=
  match lastSlashLe bin.toList bin.toList.length with
  | none => ResolveOutcome.notFound
  | some pos =>
    match lastSlashLe bin.toList (pos - 1) with
    | none => ResolveOutcome.notFound
    | some pos2 =>
      let guess := String.mk (bin.toList.take pos2)
      let cand1 := guess ++ "/share/backscrub/" ++ ty ++ "/" ++ provided
      if good cand1 then ResolveOutcome.found cand1
      else
        let cand2 := guess ++ "/" ++ ty ++ "/" ++ provided
        if good cand2 then ResolveOutcome.found cand2
        else ResolveOutcome.notFound

/-- `resolve_path` (utils.cc lines 113–194).  `good` is the read-only
`std::ifstream(...).good()` probe, `installDir` the compile-time
`INSTALL_PREFIX`, `selfExe` the `readlink("/proc/self/exe")` result
(`none` when it fails or is implausibly long).  Tier order: URI scheme,
literal path, separator short-circuit, `BACKSCRUB_PATH` roots, XDG data
home (with the `HOME` fallback and its null-pointer hazard), install
prefix, executable-relative guesses. -/
def resolve_path (env : Env) (good : String → Bool) (installDir : String)
    (selfExe : Option String) (provided ty : String) : ResolveOutcome :=
  if uriMatch provided then ResolveOutcome.found provided
  else if good provided then ResolveOutcome.found provided
  else if hasSlash provided then ResolveOutcome.notFound
  else
    match searchFirst good
        ((match env.backscrubPath with
          | some bsp => getlineSplit bsp.toList
          | none => []).map
          (fun root => String.mk root ++ "/" ++ ty ++ "/" ++ provided)) with
    | some r => ResolveOutcome.found r
    | none =>
      match (match env.xdgDataHome with
             | some x => some x
             | none =>
               match env.home with
               | some hm => some (hm ++ "/.local/share")
               | none => none) with
      | none => ResolveOutcome.undef
      | some base =>
        let xdgCand := base ++ "/backscrub/" ++ ty ++ "/" ++ provided
        if good xdgCand then ResolveOutcome.found xdgCand
        else
          let instCand :=
            installDir ++ "/share/backscrub/" ++ ty ++ "/" ++ provided
          if good instCand then ResolveOutcome.found instCand
          else
            match selfExe with
            | none => ResolveOutcome.notFound
            | some bin => exeTiers good bin ty provided

/-- C7: a name that does not match the URI pattern, contains a path
separator, and does not exist as a literal path resolves to "not found"
without consulting any later tier — for every environment, probe behaviour
on other paths, install prefix and executable location. -/
theorem resolve_path_separator_stops (env : Env) (good : String → Bool)
    (installDir : String) (selfExe : Option String) (provided ty : String)
    (hm : uriMatch provided = false) (hg : good provided = false)
    (hs : hasSlash provided = true) :
    resolve_path env good installDir selfExe provided ty
      = ResolveOutcome.notFound := by
  unfold resolve_path
  rw [hm, hg, hs]
  simp

theorem resolve_path_separator_stops_witness :
    resolve_path ⟨some "/opt/bs", some "/xdg", some "/home/u"⟩
      (fun s => s != "models/net.pb") "/usr/local" (some "/usr/bin/deepseg")
      "models/net.pb" "models" = ResolveOutcome.notFound :=
  resolve_path_separator_stops ⟨some "/opt/bs", some "/xdg", some "/home/u"⟩
    (fun s => s != "models/net.pb") "/usr/local" (some "/usr/bin/deepseg")
    "models/net.pb" "models" (by decide) (by decide) (by decide)

/-- C8 (failing input): with `BACKSCRUB_PATH`, `XDG_DATA_HOME` and `HOME`
all unset and no file readable, `resolve_path` reaches the null
`getenv("HOME")` concatenation (utils.cc line 145) — undefined behavior
rather than a graceful skip of the tier. -/
theorem resolve_path_all_env_unset_undef :
    resolve_path ⟨none, none, none⟩ (fun _ => false) "/usr/local"
      (some "/usr/bin/deepseg") "net.pb" "models" = ResolveOutcome.undef := by
  decide
